import Mathlib

/-!
Verification of the rotating-file log sink in `lumberjack.go`
(repository chriszhangmq/loglumber).

The development is a shallow embedding of the Go source:

* filenames are `List Char`;
* machine integers (`int64` sizes, Unix timestamps) are `Nat` / `Int`
  (the quantities involved never approach the 64-bit range on the
  modelled code paths, so no wraparound modelling is needed);
* file-system calls are modelled by an environment record that supplies
  each call's outcome (sizes returned by `stat`, errors of `rename`,
  `create`, `close`, the byte count and error of the underlying
  `file.Write`), and the observable effects of a call are returned
  alongside the new state (backup-rename events, the rotation count);
* Go's `time` is modelled at one-second resolution with a single fixed
  zone offset (no daylight-saving transitions; the machine's local zone
  and the configured zone coincide).  This is the resolution of the
  backup timestamp format `2006-01-02T15-04-05`.
-/

namespace Loglumber

/-- Filenames and name fragments, as lists of characters
(Go strings indexed by byte position). -/
abbrev Name := List Char

/-- Errors returned by the modelled operations: the oversize-write error of
`Write` (lumberjack.go:204-208) or a file-system error (identified by an
opaque code supplied by the environment). -/

inductive GoErr where
  | oversize
  | fsErr (code : Nat)
  deriving DecidableEq

/-! ## Backup timestamp format

`backupTimeFormat = "2006-01-02T15-04-05"` (lumberjack.go:46).
Go's `Format`/`Parse` with this layout renders and reads exactly the
year, month, day, hour, minute and second fields, zero padded; `Parse`
rejects out-of-range fields.  `FileTime` is a broken-down time at the
one-second resolution of that layout. -/

structure FileTime where
  year : Nat
  month : Nat
  day : Nat
  hour : Nat
  minute : Nat
  second : Nat
  deriving DecidableEq

/-- Leap-year rule of the proleptic Gregorian calendar (as used by Go's
`time` package). -/

def isLeapYear (y : Nat) : Bool :=
  (y % 4 == 0 && y % 100 != 0) || (y % 400 == 0)

/-- Number of days in month `m` of year `y`. -/
def daysInMonth (y m : Nat) : Nat :=
  if m = 2 then (if isLeapYear y then 29 else 28)
  else if m = 4 ∨ m = 6 ∨ m = 9 ∨ m = 11 then 30
  else 31

/-- Field ranges accepted by Go's `time.Parse` for the layout
`2006-01-02T15-04-05`. -/

def FileTime.valid (t : FileTime) : Bool :=
  decide (t.year < 10000) && decide (1 ≤ t.month) && decide (t.month ≤ 12) &&
  decide (1 ≤ t.day) && decide (t.day ≤ daysInMonth t.year t.month) &&
  decide (t.hour < 24) && decide (t.minute < 60) && decide (t.second < 60)

/-- The decimal digit character for `n < 10`. -/
def digitChar (n : Nat) : Char := Char.ofNat (48 + n)

/-- Inverse of `digitChar` on decimal digit characters. -/
def charDigit (c : Char) : Option Nat :=
  if 48 ≤ c.toNat ∧ c.toNat ≤ 57 then some (c.toNat - 48) else none

/-- Two-digit zero-padded rendering (`%02d`), for `n < 100`. -/
def pad2 (n : Nat) : List Char := [digitChar (n / 10), digitChar (n % 10)]

/-- Four-digit zero-padded rendering (`%04d`), for `n < 10000`. -/
def pad4 (n : Nat) : List Char := pad2 (n / 100) ++ pad2 (n % 100)

/-- Parse two digit characters as a number below 100. -/
def parse2 (a b : Char) : Option Nat :=
  match charDigit a, charDigit b with
  | some x, some y => some (10 * x + y)
  | _, _ => none

/-- Rendering of a broken-down time with the layout `2006-01-02T15-04-05`. -/
def formatTs (t : FileTime) : List Char :=
  pad4 t.year ++ '-' :: (pad2 t.month ++ '-' :: (pad2 t.day ++
    'T' :: (pad2 t.hour ++ '-' :: (pad2 t.minute ++ '-' :: pad2 t.second))))

/-- Parsing of the layout `2006-01-02T15-04-05`: a 19-character string with
the separators in place, digits elsewhere, and all fields in range. -/

def parseTs (s : List Char) : Option FileTime :=
  match s with
  | [y1, y2, y3, y4, c1, m1, m2, c2, d1, d2, c3, h1, h2, c4, n1, n2, c5, s1, s2] =>
    if c1 = '-' ∧ c2 = '-' ∧ c3 = 'T' ∧ c4 = '-' ∧ c5 = '-' then
      match parse2 y1 y2, parse2 y3 y4, parse2 m1 m2, parse2 d1 d2,
            parse2 h1 h2, parse2 n1 n2, parse2 s1 s2 with
      | some yh, some yl, some mo, some dd, some hh, some mi, some ss =>
        let t : FileTime := ⟨100 * yh + yl, mo, dd, hh, mi, ss⟩
        if t.valid then some t else none
      | _, _, _, _, _, _, _ => none
    else none
  | _ => none

/-- `timeFromName` (lumberjack.go:519-531): check the prefix, check the
extension, slice the timestamp out positionally
(`filename[len(prefix) : len(filename)-len(ext)]`), then parse it. -/

def timeFromName (filename pfx ext : Name) : Option FileTime :=
  if pfx.isPrefixOf filename then
    if ext.isSuffixOf filename then
      parseTs ((filename.drop pfx.length).take (filename.length - ext.length - pfx.length))
    else none
  else none

/-- The base-name part of `backupName` (lumberjack.go:328-344):
`fmt.Sprintf("%s-%s%s", prefix, timestamp, ext)` where `prefix` is the base
filename without its extension.  The directory component that
`filepath.Join` prepends is not part of the name that `timeFromName` is
later applied to (`oldLogFiles` passes `f.Name()`, a base name), so the
model works at base-name level. -/

def backupNameStr (pfxNoExt ext : Name) (t : FileTime) : Name :=
  pfxNoExt ++ '-' :: (formatTs t ++ ext)

/-! ## The write path

State of the `Logger` struct (lumberjack.go:87-143) restricted to the
fields the write path reads or writes, plus the package-level mutable
variables (lumberjack.go:145-167).  Timestamps are Unix seconds (`Int`);
`nowTime`/`nowTimestamp` coincide at the model's one-second resolution. -/

/-- The package-level variables `nowTimestamp`, `lastTimestamp`,
`yesterdayLastTimestamp` and `isSplitDay` (lumberjack.go:156-167). -/

structure Globals where
  nowTimestamp : Int
  lastTimestamp : Int
  yesterdayLastTimestamp : Int
  isSplitDay : Bool
  deriving DecidableEq

/-- The `Logger` fields used by `Write`/`Rotate`/`Close`.  `logMaxSize` is
`LogMaxSize` in megabytes; the open file handle carries no content in the
model (writes are observed through the environment). -/

structure Logger where
  logMaxSize : Nat
  logSplitDay : Nat
  localTime : Bool
  splitDayCount : Nat
  size : Nat
  file : Option Unit
  deriving DecidableEq

/-- `megabyte` (lumberjack.go:155). -/
def megabyte : Nat := 1024 * 1024

/-- `defaultMaxSize` (lumberjack.go:49). -/
def defaultMaxSize : Nat := 1024 * 1024 * 1024

/-- `Logger.max` (lumberjack.go:534-539): the size threshold in bytes. -/
def Logger.max (l : Logger) : Nat :=
  if l.logMaxSize = 0 then defaultMaxSize * megabyte else l.logMaxSize * megabyte

/-- End-of-day instant (23:59:59) of the civil day containing `ts`, in the
zone with fixed offset `off` east of UTC.  This is the value
`updateLastTimeOfToday` computes (format the date, append `_23:59:59`,
parse back; lumberjack.go:633-645) in the model's single-zone,
no-daylight-saving abstraction. -/

def endOfDay (off ts : Int) : Int :=
  86400 * ((ts + off).fdiv 86400) + 86399 - off

/-- Outcome of `osStat` on the target path. -/
inductive StatRes where
  | notExist
  | statError (code : Nat)
  | ok (size : Nat)
  deriving DecidableEq

/-- Environment of one `Write`/`Rotate`/`Close` call: the current time
(`currentTime()` is constant within a call), the zone offset, and the
outcome of each file-system operation the call may perform. -/

structure WEnv where
  now : Int
  off : Int
  stat : StatRes
  mkdirErr : Option Nat
  renameErr : Option Nat
  createErr : Option Nat
  appendErr : Option Nat
  closeErr : Option Nat
  writeN : Nat
  writeErr : Option Nat

/-- Why a rotation was performed: the day-split branch of `Write`
(lumberjack.go:222-228), the size check (lumberjack.go:233-237), the
first-open path (`openExistingOrNew`, lumberjack.go:361-363), or the
public `Rotate` (lumberjack.go:267-271). -/

inductive RotCause where
  | daySplit
  | sizeLimit
  | firstOpen
  | manualRot
  deriving DecidableEq

/-- One backup rename performed by `openNew` (lumberjack.go:302-303):
the cause of the enclosing rotation, the value of the package-level
`isSplitDay` flag when `backupName` ran, and the instant embedded in the
backup filename. -/

structure RotEvent where
  cause : RotCause
  splitFlag : Bool
  ts : Int
  deriving DecidableEq

/-- The instant `backupName` (lumberjack.go:328-344) embeds in the backup
filename: `yesterdayLastTimestamp` when `isSplitDay` is set, the current
time otherwise (`t.UTC()` does not change the instant). -/

def backupTs (env : WEnv) (g : Globals) : Int :=
  if g.isSplitDay then g.yesterdayLastTimestamp else env.now

/-- `Logger.close` (lumberjack.go:252-260): returns `nil` if no file is
open, otherwise closes the handle (outcome from the environment) and
clears it. -/

def closeModel (env : WEnv) (l : Logger) : Logger × Option GoErr :=
  match l.file with
  | none => (l, none)
  | some _ => ({ l with file := none }, (env.closeErr).map GoErr.fsErr)

/-- Result of `rotate`/`openNew`: new globals, new logger state, backup
renames performed, error. -/

structure ROut where
  g : Globals
  l : Logger
  events : List RotEvent
  err : Option GoErr
  deriving DecidableEq

/-- `Logger.openNew` (lumberjack.go:289-323): ensure the directory, stat
the target; if it exists, rename it to `backupName` (recorded as a
`RotEvent`; `chown` is the no-op non-Linux stub, see the comment at
lumberjack.go:307); then truncate-create the new file and reset the size
counter. -/

def openNewModel (cause : RotCause) (env : WEnv) (g : Globals) (l : Logger) : ROut :=
  match env.mkdirErr with
  | some c => ⟨g, l, [], some (.fsErr c)⟩
  | none =>
    match env.stat with
    | .ok _ =>
      match env.renameErr with
      | some c => ⟨g, l, [], some (.fsErr c)⟩
      | none =>
        let ev : RotEvent := ⟨cause, g.isSplitDay, backupTs env g⟩
        match env.createErr with
        | some c => ⟨g, l, [ev], some (.fsErr c)⟩
        | none => ⟨g, { l with file := some (), size := 0 }, [ev], none⟩
    | _ =>
      match env.createErr with
      | some c => ⟨g, l, [], some (.fsErr c)⟩
      | none => ⟨g, { l with file := some (), size := 0 }, [], none⟩

/-- `Logger.rotate` (lumberjack.go:276-285): close, then `openNew`; the
`mill` signal is asynchronous and leaves the modelled state unchanged. -/

def rotateModel (cause : RotCause) (env : WEnv) (g : Globals) (l : Logger) : ROut :=
  match closeModel env l with
  | (l1, some e) => ⟨g, l1, [], some e⟩
  | (l1, none) => openNewModel cause env g l1

/-- The public `Rotate` (lumberjack.go:267-271). -/
def rotateTop (env : WEnv) (g : Globals) (l : Logger) : ROut :=
  rotateModel .manualRot env g l

/-- Result of `openExistingOrNew`: also counts invocations of the
`rotate` routine. -/

structure OOut where
  g : Globals
  l : Logger
  events : List RotEvent
  rotations : Nat
  err : Option GoErr
  deriving DecidableEq

/-- `Logger.openExistingOrNew` (lumberjack.go:349-374): stat the target;
absent means `openNew`; a stat error is returned; if the existing size
plus the pending write reaches the threshold (`>=`, lumberjack.go:361)
rotate first; otherwise open for append (falling back to `openNew` when
the append-open fails) and adopt the existing size. -/

def openExistingOrNewModel (env : WEnv) (g : Globals) (l : Logger) (p : Nat) : OOut :=
  match env.stat with
  | .notExist =>
    let r := openNewModel .firstOpen env g l
    ⟨r.g, r.l, r.events, 0, r.err⟩
  | .statError c => ⟨g, l, [], 0, some (.fsErr c)⟩
  | .ok s =>
    if l.max ≤ s + p then
      let r := rotateModel .firstOpen env g l
      ⟨r.g, r.l, r.events, 1, r.err⟩
    else
      match env.appendErr with
      | some _ =>
        let r := openNewModel .firstOpen env g l
        ⟨r.g, r.l, r.events, 0, r.err⟩
      | none => ⟨g, { l with file := some (), size := s }, [], 0, none⟩

/-- Result of one `Write` call, with the instrumentation the claims need:
number of `rotate` invocations, backup renames performed, the size counter
immediately before the underlying `file.Write` (absent when the call
returned before writing), and whether the day-split branch's rotation
failed (the path that returns without clearing `isSplitDay`,
lumberjack.go:225-227). -/

structure WriteOut where
  g : Globals
  l : Logger
  n : Nat
  err : Option GoErr
  rotations : Nat
  events : List RotEvent
  preWrite : Option Nat
  daySplitRotateFailed : Bool
  deriving DecidableEq

/-- The tail of `Write` (lumberjack.go:239-242): perform the underlying
write, advance the size counter by the bytes actually written, return the
count and the underlying error verbatim. -/

def doWrite (env : WEnv) (g : Globals) (l : Logger) (rc : Nat) (evs : List RotEvent)
    (dsf : Bool) : WriteOut :=
  ⟨g, { l with size := l.size + env.writeN }, env.writeN, (env.writeErr).map GoErr.fsErr,
    rc, evs, some l.size, dsf⟩

/-- The size check of `Write` (lumberjack.go:233-237): rotate when the
pending write would push the open file strictly over the threshold. -/

def sizeStep (env : WEnv) (g : Globals) (l : Logger) (p rc : Nat) (evs : List RotEvent)
    (dsf : Bool) : WriteOut :=
  if l.max < l.size + p then
    let r := rotateModel .sizeLimit env g l
    match r.err with
    | some e => ⟨r.g, r.l, 0, some e, rc + 1, evs ++ r.events, none, dsf⟩
    | none => doWrite env r.g r.l (rc + 1) (evs ++ r.events) dsf
  else doWrite env g l rc evs dsf

/-- The inner part of the day-split branch of `Write`
(lumberjack.go:220-229), entered with the day counter already advanced
(`l1`) and the day-boundary timestamps refreshed (`g2`): once the counter
reaches the threshold it is reset, `isSplitDay` is raised and a rotation
runs.  On a rotation error the call returns at once — without clearing
`isSplitDay` (lumberjack.go:226); otherwise the clearing statement at
lumberjack.go:229 runs before the size check. -/

def dayRotateStep (env : WEnv) (g2 : Globals) (l1 : Logger) (p rc : Nat)
    (evs : List RotEvent) : WriteOut :=
  if l1.logSplitDay ≤ l1.splitDayCount then
    let r := rotateModel .daySplit env { g2 with isSplitDay := true }
      { l1 with splitDayCount := 0 }
    match r.err with
    | some e => ⟨r.g, r.l, 0, some e, rc + 1, evs ++ r.events, none, true⟩
    | none =>
      sizeStep env { r.g with isSplitDay := false } r.l p (rc + 1) (evs ++ r.events) false
  else
    sizeStep env { g2 with isSplitDay := false } l1 p rc evs false

/-- The day-split branch of `Write` (lumberjack.go:217-230): when
day-splitting is enabled (`LogSplitDay > 0`, with Go's `&&`
short-circuit) and a day boundary has been crossed (`isNextDay`:
`nowTimestamp` is refreshed and compared against `lastTimestamp`), the
day-boundary timestamps are refreshed and the day counter advanced
before `dayRotateStep`; otherwise control falls through to the size
check. -/

def dayStep (env : WEnv) (g : Globals) (l : Logger) (p rc : Nat)
    (evs : List RotEvent) : WriteOut :=
  if 0 < l.logSplitDay then
    if g.lastTimestamp < env.now then
      dayRotateStep env
        { g with nowTimestamp := env.now, lastTimestamp := endOfDay env.off env.now,
                 yesterdayLastTimestamp := endOfDay env.off (env.now - 86400) }
        { l with splitDayCount := l.splitDayCount + 1 } p rc evs
    else
      sizeStep env { g with nowTimestamp := env.now } l p rc evs false
  else
    sizeStep env g l p rc evs false

/-- `Logger.Write` (lumberjack.go:199-243): oversize guard, lazy open,
day-split branch, size check, write. -/

def write (env : WEnv) (g : Globals) (l : Logger) (p : Nat) : WriteOut :=
  if l.max < p then ⟨g, l, 0, some .oversize, 0, [], none, false⟩
  else
    match l.file with
    | some _ => dayStep env g l p 0 []
    | none =>
      let o := openExistingOrNewModel env g l p
      match o.err with
      | some e => ⟨o.g, o.l, 0, some e, o.rotations, o.events, none, false⟩
      | none => dayStep env o.g o.l p o.rotations o.events

/-! ## Sample states for closed witnesses and counterexamples -/

/-- A quiescent global state: day 0, flag clear. -/
def sampleG : Globals := ⟨0, 86399, 0, false⟩

/-- A 1-megabyte logger with an open file holding 1048569 bytes. -/
def sampleL : Logger :=
  { logMaxSize := 1, logSplitDay := 0, localTime := false,
    splitDayCount := 0, size := 1048569, file := some () }

/-- A benign environment: every operation succeeds, the write accepts 7
bytes. -/

def sampleEnv : WEnv := ⟨1000, 0, .ok 500, none, none, none, none, none, 7, none⟩

/-- The logger before its first write, with a pre-existing file at the
target path. -/

def freshL : Logger := { sampleL with file := none, size := 0 }

/-- Environment whose `stat` reports a pre-existing file of 1048569 bytes. -/
def boundaryEnv : WEnv := ⟨1000, 0, .ok 1048569, none, none, none, none, none, 7, none⟩

/-- A day-splitting logger (split every day). -/
def dayL : Logger := { sampleL with logSplitDay := 1, size := 10 }

/-- Environment one day later (`now` past `sampleG.lastTimestamp`) whose
`close` fails, so the day-split rotation fails. -/

def dayEnvFail : WEnv := ⟨100000, 0, .ok 500, none, none, none, none, some 3, 0, none⟩

/-! ## The write post-condition (C5) -/

/-- Post-condition of one `Write` call against threshold `mx`: on success
the size counter stays within the threshold and equals the size just
before the underlying write (0 whenever a rotation ran during the call)
plus the bytes written; and whenever the underlying write was reached,
its byte count and error are returned to the caller verbatim. -/

def writePost (env : WEnv) (mx : Nat) (out : WriteOut) : Prop :=
  (out.err = none →
    out.l.size ≤ mx ∧ out.n = env.writeN ∧
    ∃ s0, out.preWrite = some s0 ∧ out.l.size = s0 + out.n ∧
      (0 < out.rotations → s0 = 0)) ∧
  (out.preWrite.isSome = true →
    out.n = env.writeN ∧ out.err = (env.writeErr).map GoErr.fsErr)

/-! ## The retention sweep (`millRunOnce`, lumberjack.go:389-460) -/

/-- `logInfo` (lumberjack.go:612-615): a backup file discovered in the log
directory, with its base name and parsed rotation timestamp (Unix
seconds). -/

structure LogInfo where
  name : Name
  ts : Int
  deriving DecidableEq

/-- `compressSuffix = ".gz"` (lumberjack.go:47). -/
def compressSuffix : Name := ['.', 'g', 'z']

/-- The logical-backup key used by the count filter
(lumberjack.go:407-410): the file name with a trailing `.gz` stripped, so
an uncompressed file and its compressed counterpart share one key. -/

def logicalName (n : Name) : Name :=
  if compressSuffix.isSuffixOf n then n.take (n.length - 3) else n

/-- The count-retention loop of `millRunOnce` (lumberjack.go:402-418):
walk the files newest first, tracking the set of logical names seen
(`preserved`); once more than `k` distinct names have been seen, every
further file goes to the remove list, the rest to the remaining list. -/

def countPass (k : Nat) (preserved : List Name) :
    List LogInfo → List LogInfo × List LogInfo
  | [] => ([], [])
  | f :: fs =>
    let fn := logicalName f.name
    let preserved1 := if fn ∈ preserved then preserved else preserved ++ [fn]
    let rest := countPass k preserved1 fs
    if k < preserved1.length then (f :: rest.1, rest.2)
    else (rest.1, f :: rest.2)

/-- Outcome of the apply phase of the sweep, supplied by the
environment: the error of `os.Remove` and of `compressLogFile` per file
name. -/

structure MillEnv where
  now : Int
  removeRes : Name → Option Nat
  compressRes : Name → Option Nat

/-- The sweep's configuration slice of the `Logger`. -/
structure MillCfg where
  logMaxSaveQuantity : Nat
  logMaxSaveDay : Nat
  compress : Bool
  deriving DecidableEq

/-- One applied action of the sweep, with its outcome. -/
inductive MillAct where
  | rm (n : Name) (res : Option Nat)
  | gz (n : Name) (res : Option Nat)
  deriving DecidableEq

/-- The error-collection step of the apply loops (lumberjack.go:447-449
and 454-456): `if err == nil && errX != nil { err = errX }`. -/

def goCollect (acc r : Option Nat) : Option Nat :=
  match acc, r with
  | none, some e => some e
  | _, _ => acc

/-- The removal loop (lumberjack.go:445-450): every file in the remove
list is attempted, errors are collected without aborting. -/

def runRemoves (env : MillEnv) (acc : Option Nat) :
    List LogInfo → List MillAct × Option Nat
  | [] => ([], acc)
  | f :: fs =>
    let r := env.removeRes f.name
    let rest := runRemoves env (goCollect acc r) fs
    (.rm f.name r :: rest.1, rest.2)

/-- The compression loop (lumberjack.go:451-457): every file in the
compress list is attempted, errors are collected without aborting. -/

def runCompresses (env : MillEnv) (acc : Option Nat) :
    List LogInfo → List MillAct × Option Nat
  | [] => ([], acc)
  | f :: fs =>
    let r := env.compressRes f.name
    let rest := runCompresses env (goCollect acc r) fs
    (.gz f.name r :: rest.1, rest.2)

/-- Result of one retention sweep: the selected remove and compress
lists, the trace of applied actions in order, and the returned error. -/

structure MillOut where
  removeSel : List LogInfo
  compressSel : List LogInfo
  trace : List MillAct
  err : Option GoErr

/-- `millRunOnce` (lumberjack.go:389-460) on the directory listing
`files` (as produced by `oldLogFiles`: backup files sorted newest
rotation time first): no-op when count limit, age limit and compression
are all off; otherwise the count filter (only when a positive count limit
is exceeded), then the age filter (strictly older than `now − 24h·days`),
then compression marking of surviving uncompressed files; deletions are
applied first, then compressions, collecting the first error. -/

def millRunOnce (cfg : MillCfg) (env : MillEnv) (files : List LogInfo) : MillOut :=
  if cfg.logMaxSaveQuantity = 0 ∧ cfg.logMaxSaveDay = 0 ∧ cfg.compress = false then
    ⟨[], [], [], none⟩
  else
    let qpair :=
      if 0 < cfg.logMaxSaveQuantity ∧ cfg.logMaxSaveQuantity < files.length then
        countPass cfg.logMaxSaveQuantity [] files
      else ([], files)
    let cutoff : Int := env.now - 86400 * (cfg.logMaxSaveDay : Int)
    let apair :=
      if 0 < cfg.logMaxSaveDay then
        (qpair.2.filter (fun f => decide (f.ts < cutoff)),
         qpair.2.filter (fun f => ! decide (f.ts < cutoff)))
      else ([], qpair.2)
    let cmp :=
      if cfg.compress then
        apair.2.filter (fun f => ! compressSuffix.isSuffixOf f.name)
      else []
    let rem := qpair.1 ++ apair.1
    let r1 := runRemoves env none rem
    let r2 := runCompresses env r1.2 cmp
    ⟨rem, cmp, r1.1 ++ r2.1, (r2.2).map GoErr.fsErr⟩

/-- First error in a list of outcomes. -/
def firstSome : List (Option Nat) → Option Nat
  | [] => none
  | some e :: _ => some e
  | none :: rest => firstSome rest

/-! ## The compression worker (`compressLogFile`, lumberjack.go:557-608) -/

/-- Environment of one `compressLogFile` call: the source file's content
(bytes) and permission mode, and the outcome of each step — opening the
source, statting it, creating/opening the destination, `io.Copy` through
the gzip writer, closing the gzip writer, the destination and the source,
and removing the source.  `chown` is the no-op non-Linux stub (see the
comment at lumberjack.go:307; the Linux variant is not part of this
repository's sources). -/

structure CompressEnv where
  srcContent : List Nat
  srcMode : Nat
  openSrcErr : Option Nat
  statSrcErr : Option Nat
  openDstErr : Option Nat
  copyErr : Option Nat
  gzCloseErr : Option Nat
  dstCloseErr : Option Nat
  srcCloseErr : Option Nat
  removeSrcErr : Option Nat
  deriving DecidableEq

/-- Observable file-system outcome of `compressLogFile`: whether the
source still exists, the destination file (content and mode) if it
exists, and the returned error. -/

structure FsOut where
  srcPresent : Bool
  dst : Option (List Nat × Nat)
  err : Option GoErr
  deriving DecidableEq

/-- `compressLogFile` (lumberjack.go:557-608), parameterized by the gzip
encoder `gzEnc` (the `compress/gzip` library, external to the
repository).  The deferred cleanup registered after the destination is
opened (lumberjack.go:583-588) removes the destination whenever the
named return error is non-nil, so every failure from the copy onward
leaves no destination; failures before the destination is opened never
created it.  The source is removed only as the final step. -/

def compressLogFile (gzEnc : List Nat → List Nat) (env : CompressEnv) : FsOut :=
  match env.openSrcErr with
  | some c => ⟨true, none, some (.fsErr c)⟩
  | none =>
  match env.statSrcErr with
  | some c => ⟨true, none, some (.fsErr c)⟩
  | none =>
  match env.openDstErr with
  | some c => ⟨true, none, some (.fsErr c)⟩
  | none =>
  match env.copyErr with
  | some c => ⟨true, none, some (.fsErr c)⟩
  | none =>
  match env.gzCloseErr with
  | some c => ⟨true, none, some (.fsErr c)⟩
  | none =>
  match env.dstCloseErr with
  | some c => ⟨true, none, some (.fsErr c)⟩
  | none =>
  match env.srcCloseErr with
  | some c => ⟨true, none, some (.fsErr c)⟩
  | none =>
  match env.removeSrcErr with
  | some c => ⟨true, none, some (.fsErr c)⟩
  | none => ⟨false, some (gzEnc env.srcContent, env.srcMode), none⟩

/-- Sample environment for the compression worker: a three-byte source
file with mode 420 (0644), every step succeeding. -/

def cEnvOk : CompressEnv := ⟨[10, 20, 30], 420, none, none, none, none, none, none, none, none⟩

/-- Sample environment whose `io.Copy` fails. -/
def cEnvCopyFail : CompressEnv :=
  ⟨[10, 20, 30], 420, none, none, none, some 5, none, none, none, none⟩

/-- The logical-backup key of a discovered file. -/
def logKey (f : LogInfo) : Name := logicalName f.name

/-- Collapse consecutive runs equal to the pivot `a`, recording each new
pivot. -/

def groupsFrom (a : Name) : List Name → List Name
  | [] => []
  | b :: l => if b = a then groupsFrom a l else b :: groupsFrom b l

/-- The list of logical names with consecutive duplicate runs collapsed:
for a grouped listing, the logical backups in order, newest first. -/

def groupsOf : List Name → List Name
  | [] => []
  | a :: l => a :: groupsFrom a l

/-- A sample listing, newest first: one recent-ish backup `b.log` and an
older logical backup present both plain and compressed
(`a.log`/`a.log.gz`, same rotation time). -/

def wfiles : List LogInfo :=
  [⟨['b', '.', 'l', 'o', 'g'], 100000⟩,
   ⟨['a', '.', 'l', 'o', 'g'], 90000⟩,
   ⟨['a', '.', 'l', 'o', 'g', '.', 'g', 'z'], 90000⟩]

/-- Keep one logical backup, age limit one day, no compression. -/
def wcfg : MillCfg := ⟨1, 1, false⟩

/-- Sweep environment at `now = 200000` (so the one-day cutoff is
113600) with every action succeeding. -/

def wenv : MillEnv := ⟨200000, fun _ => none, fun _ => none⟩

/-! ## Theorems -/

theorem charDigit_digitChar : ∀ d, d < 10 → charDigit (digitChar d) = some d := by
  decide

theorem parse2_pad2 : ∀ n, n < 100 →
    parse2 (digitChar (n / 10)) (digitChar (n % 10)) = some n := by
  decide

theorem formatTs_length (t : FileTime) : (formatTs t).length = 19 := by
  simp [formatTs, pad4, pad2]

theorem parseTs_formatTs (t : FileTime) (hv : t.valid = true) :
    parseTs (formatTs t) = some t := by
  obtain ⟨y, mo, d, h, mi, s⟩ := t
  simp only [FileTime.valid, Bool.and_eq_true, decide_eq_true_eq] at hv
  have hy : y < 10000 := by tauto
  have hmo : mo ≤ 12 := by tauto
  have hd : d ≤ daysInMonth y mo := by tauto
  have hh : h < 24 := by tauto
  have hmi : mi < 60 := by tauto
  have hs : s < 60 := by tauto
  have hy1 : y / 100 < 100 := by omega
  have hy2 : y % 100 < 100 := Nat.mod_lt _ (by omega)
  have hmo' : mo < 100 := by omega
  have hd' : d < 100 := by
    have : daysInMonth y mo ≤ 31 := by
      simp only [daysInMonth]
      split <;> [split <;> omega; (split <;> omega)]
    omega
  simp only [formatTs, pad4, pad2, List.cons_append, List.nil_append]
  simp only [parseTs, parse2_pad2 _ hy1, parse2_pad2 _ hy2, parse2_pad2 _ hmo',
    parse2_pad2 _ hd', parse2_pad2 _ (by omega : h < 100),
    parse2_pad2 _ (by omega : mi < 100), parse2_pad2 _ (by omega : s < 100)]
  have hrec : 100 * (y / 100) + y % 100 = y := by omega
  simp only [hrec, if_pos (by simp : ('-' : Char) = '-' ∧ ('-' : Char) = '-' ∧
    ('T' : Char) = 'T' ∧ ('-' : Char) = '-' ∧ ('-' : Char) = '-')]
  have hv' : FileTime.valid ⟨y, mo, d, h, mi, s⟩ = true := by
    simp only [FileTime.valid, Bool.and_eq_true, decide_eq_true_eq]
    tauto
  simp [hv']

/-- C8: with the same local-vs-UTC setting in both directions (the model's
single fixed zone) and the rotation not tagged as a day-split, parsing the
filename produced by the backup-naming function with the Logger's prefix
(`prefixAndExt`: base name without extension, plus a dash) and extension
recovers the timestamp at the one-second resolution of the format
(`FileTime` carries exactly the fields of the format, so truncation to
whole seconds is the identity here). -/

theorem c8_backup_roundtrip (pfxNoExt ext : Name) (t : FileTime) (hv : t.valid = true) :
    timeFromName (backupNameStr pfxNoExt ext t) (pfxNoExt ++ ['-']) ext = some t := by
  have hshape : backupNameStr pfxNoExt ext t = (pfxNoExt ++ ['-']) ++ (formatTs t ++ ext) := by
    simp [backupNameStr]
  have hshape2 : backupNameStr pfxNoExt ext t = ((pfxNoExt ++ ['-']) ++ formatTs t) ++ ext := by
    simp [backupNameStr]
  have h1 : (pfxNoExt ++ ['-']).isPrefixOf (backupNameStr pfxNoExt ext t) = true :=
    List.isPrefixOf_iff_prefix.mpr (hshape ▸ List.prefix_append _ _)
  have h2 : ext.isSuffixOf (backupNameStr pfxNoExt ext t) = true :=
    List.isSuffixOf_iff_suffix.mpr (hshape2 ▸ List.suffix_append _ _)
  have hcount : (backupNameStr pfxNoExt ext t).length - ext.length -
      (pfxNoExt ++ ['-']).length = 19 := by
    simp [backupNameStr, formatTs_length]
    omega
  simp only [timeFromName, h1, h2, if_true, hcount]
  rw [hshape, List.drop_left, List.take_left' (formatTs_length t)]
  exact parseTs_formatTs t hv

/-- Closed instance of the round-trip: base name `server`, extension
`.log`, timestamp 2016-11-04 18:30:07. -/

theorem c8_backup_roundtrip_witness :
    (FileTime.valid ⟨2016, 11, 4, 18, 30, 7⟩ = true) ∧
    timeFromName
      (backupNameStr ['s', 'e', 'r', 'v', 'e', 'r'] ['.', 'l', 'o', 'g'] ⟨2016, 11, 4, 18, 30, 7⟩)
      (['s', 'e', 'r', 'v', 'e', 'r'] ++ ['-']) ['.', 'l', 'o', 'g'] =
      some ⟨2016, 11, 4, 18, 30, 7⟩ :=
  ⟨by decide, c8_backup_roundtrip _ _ _ (by decide)⟩

/-! ## Structural facts about the write path -/

theorem openNewModel_spec (c : RotCause) (env : WEnv) (g : Globals) (l : Logger) :
    (openNewModel c env g l).g = g ∧
    (openNewModel c env g l).l.logMaxSize = l.logMaxSize ∧
    (openNewModel c env g l).l.logSplitDay = l.logSplitDay ∧
    (openNewModel c env g l).l.splitDayCount = l.splitDayCount ∧
    ((openNewModel c env g l).err = none →
      (openNewModel c env g l).l.size = 0 ∧ (openNewModel c env g l).l.file = some ()) ∧
    (∀ ev ∈ (openNewModel c env g l).events,
      ev = ⟨c, g.isSplitDay, backupTs env g⟩) := by
  unfold openNewModel
  cases env.mkdirErr <;> cases env.stat <;> cases env.renameErr <;>
    cases env.createErr <;> simp

theorem rotateModel_spec (c : RotCause) (env : WEnv) (g : Globals) (l : Logger) :
    (rotateModel c env g l).g = g ∧
    (rotateModel c env g l).l.logMaxSize = l.logMaxSize ∧
    (rotateModel c env g l).l.logSplitDay = l.logSplitDay ∧
    (rotateModel c env g l).l.splitDayCount = l.splitDayCount ∧
    ((rotateModel c env g l).err = none →
      (rotateModel c env g l).l.size = 0 ∧ (rotateModel c env g l).l.file = some ()) ∧
    (∀ ev ∈ (rotateModel c env g l).events,
      ev = ⟨c, g.isSplitDay, backupTs env g⟩) := by
  unfold rotateModel closeModel
  cases l.file
  · exact openNewModel_spec c env g l
  · cases env.closeErr
    · exact openNewModel_spec c env g { l with file := none }
    · simp

theorem openExistingOrNewModel_spec (env : WEnv) (g : Globals) (l : Logger) (p : Nat) :
    (openExistingOrNewModel env g l p).g = g ∧
    (openExistingOrNewModel env g l p).l.logMaxSize = l.logMaxSize ∧
    (openExistingOrNewModel env g l p).l.logSplitDay = l.logSplitDay ∧
    (openExistingOrNewModel env g l p).l.splitDayCount = l.splitDayCount ∧
    ((openExistingOrNewModel env g l p).err = none →
      (openExistingOrNewModel env g l p).l.file = some () ∧
      (0 < (openExistingOrNewModel env g l p).rotations →
        (openExistingOrNewModel env g l p).l.size = 0)) ∧
    (∀ ev ∈ (openExistingOrNewModel env g l p).events,
      ev = ⟨.firstOpen, g.isSplitDay, backupTs env g⟩) := by
  obtain ⟨ha1, ha2, ha3, ha4, ha5, ha6⟩ := openNewModel_spec .firstOpen env g l
  obtain ⟨hb1, hb2, hb3, hb4, hb5, hb6⟩ := rotateModel_spec .firstOpen env g l
  unfold openExistingOrNewModel
  cases env.stat <;> dsimp only
  · exact ⟨ha1, ha2, ha3, ha4,
      fun he => ⟨(ha5 he).2, fun h0 => absurd h0 (Nat.lt_irrefl 0)⟩, ha6⟩
  · simp
  · split
    · exact ⟨hb1, hb2, hb3, hb4, fun he => ⟨(hb5 he).2, fun _ => (hb5 he).1⟩, hb6⟩
    · cases env.appendErr <;> dsimp only
      · simp
      · exact ⟨ha1, ha2, ha3, ha4,
          fun he => ⟨(ha5 he).2, fun h0 => absurd h0 (Nat.lt_irrefl 0)⟩, ha6⟩

theorem openExistingOrNewModel_rotations (env : WEnv) (g : Globals) (l : Logger)
    (p s : Nat) (hs : env.stat = .ok s) :
    (openExistingOrNewModel env g l p).rotations = (if l.max ≤ s + p then 1 else 0) ∧
    ((openExistingOrNewModel env g l p).err = none →
      (openExistingOrNewModel env g l p).l.size ≤ s) := by
  obtain ⟨ha1, ha2, ha3, ha4, ha5, ha6⟩ := openNewModel_spec .firstOpen env g l
  obtain ⟨hb1, hb2, hb3, hb4, hb5, hb6⟩ := rotateModel_spec .firstOpen env g l
  unfold openExistingOrNewModel
  rw [hs]
  dsimp only
  split
  · next hcond => exact ⟨by simp [hcond], fun he => by rw [(hb5 he).1]; exact Nat.zero_le s⟩
  · next hcond =>
    cases env.appendErr <;> dsimp only
    · exact ⟨by simp [hcond], fun _ => Nat.le_refl s⟩
    · exact ⟨by simp [hcond], fun he => by rw [(ha5 he).1]; exact Nat.zero_le s⟩

theorem sizeStep_rotations (env : WEnv) (g : Globals) (l : Logger) (p rc : Nat)
    (evs : List RotEvent) (dsf : Bool) :
    (sizeStep env g l p rc evs dsf).rotations =
      (if l.max < l.size + p then rc + 1 else rc) := by
  unfold sizeStep
  split
  · cases h : (rotateModel .sizeLimit env g l).err <;> simp [h, doWrite]
  · simp [doWrite]

theorem sizeStep_g (env : WEnv) (g : Globals) (l : Logger) (p rc : Nat)
    (evs : List RotEvent) (dsf : Bool) :
    (sizeStep env g l p rc evs dsf).g = g ∧
    (sizeStep env g l p rc evs dsf).daySplitRotateFailed = dsf := by
  have h2 := (rotateModel_spec .sizeLimit env g l).1
  unfold sizeStep
  split
  · cases h : (rotateModel .sizeLimit env g l).err <;> simp [h, doWrite, h2]
  · simp [doWrite]

theorem Logger.max_congr (l1 l2 : Logger) (h : l1.logMaxSize = l2.logMaxSize) :
    l1.max = l2.max := by
  unfold Logger.max
  rw [h]

theorem dayStep_noSplit (env : WEnv) (g : Globals) (l : Logger) (p rc : Nat)
    (evs : List RotEvent) (hd : l.logSplitDay = 0) :
    dayStep env g l p rc evs = sizeStep env g l p rc evs false := by
  unfold dayStep
  rw [hd]
  simp

/-! ## Claim theorems: write path -/

/-- C2: a payload longer than the size threshold fails at once with a
written count of 0 and an error, and changes nothing: globals, logger
state, rotation count and the event trace are all those of the untouched
state.  The statement quantifies over every environment, so no outcome of
any file-system operation can make the same call succeed: the error is
permanent. -/

theorem c2_oversize_write (env : WEnv) (g : Globals) (l : Logger) (p : Nat)
    (h : l.max < p) :
    write env g l p = ⟨g, l, 0, some .oversize, 0, [], none, false⟩ := by
  unfold write
  rw [if_pos h]

/-- Closed instance of the oversize-write behaviour: a 1 MB logger
rejects a 1048577-byte payload untouched. -/

theorem c2_oversize_write_witness :
    sampleL.max < 1048577 ∧
    write sampleEnv sampleG sampleL 1048577 =
      ⟨sampleG, sampleL, 0, some .oversize, 0, [], none, false⟩ :=
  ⟨by decide, c2_oversize_write sampleEnv sampleG sampleL 1048577 (by decide)⟩

/-- C1 counterexample: on the first write of a Logger that opens a
pre-existing file, a write that would land the file exactly at the
threshold (1048569 + 7 = 1048576 = max) DOES cause a rotation, because
`openExistingOrNew` compares with `>=` (lumberjack.go:361), contradicting
the claim that a write landing exactly at the threshold never rotates. -/

theorem c1_counterexample :
    freshL.file = none ∧ boundaryEnv.stat = .ok 1048569 ∧
    1048569 + 7 = freshL.max ∧
    0 < (write boundaryEnv sampleG freshL 7).rotations := by
  decide

/-- C1 amended: with day-splitting disabled and the payload within the
threshold, a `Write` on an already-open file triggers the rotate routine
exactly when `size + len > max` (strict, lumberjack.go:233), while the
first write of a Logger that opens a pre-existing file of size `s`
triggers it exactly when `s + len ≥ max` (lumberjack.go:361): at the
boundary the open-file case does not rotate but the first-open case
does. -/

theorem c1_amended (env : WEnv) (g : Globals) (l : Logger) (p s : Nat)
    (hd : l.logSplitDay = 0) (hp : p ≤ l.max) (hs : env.stat = .ok s) :
    (l.file.isSome = true → (0 < (write env g l p).rotations ↔ l.max < l.size + p)) ∧
    (l.file = none → (0 < (write env g l p).rotations ↔ l.max ≤ s + p)) := by
  constructor
  · intro hf
    rcases hfile : l.file with _ | u
    · rw [hfile] at hf; simp at hf
    · unfold write
      rw [if_neg (by omega), hfile]
      dsimp only
      rw [dayStep_noSplit env g l p 0 [] hd, sizeStep_rotations]
      split <;> simp_all
  · intro hf
    unfold write
    rw [if_neg (by omega), hf]
    dsimp only
    obtain ⟨hrot, hsz⟩ := openExistingOrNewModel_rotations env g l p s hs
    obtain ⟨hg, hmx, hsd, hsc, herr, hev⟩ := openExistingOrNewModel_spec env g l p
    have hmax : (openExistingOrNewModel env g l p).l.max = l.max :=
      Logger.max_congr _ _ hmx
    cases herr2 : (openExistingOrNewModel env g l p).err
    case none =>
      simp only [herr2]
      rw [dayStep_noSplit env (openExistingOrNewModel env g l p).g
            (openExistingOrNewModel env g l p).l p
            (openExistingOrNewModel env g l p).rotations
            (openExistingOrNewModel env g l p).events (by rw [hsd]; exact hd),
          sizeStep_rotations]
      have hsz2 := hsz herr2
      rw [hrot, hmax]
      by_cases hc : l.max ≤ s + p
      · rw [if_pos hc]
        split <;> simp [hc]
      · rw [if_neg hc, if_neg (by omega)]
        simp [hc]
    case some e =>
      simp only [herr2]
      rw [hrot]
      by_cases hc : l.max ≤ s + p
      · rw [if_pos hc]; simp [hc]
      · rw [if_neg hc]; simp [hc]

/-- Closed instances of the amended boundary behaviour: an open file at
1048569 bytes accepts 7 more bytes (landing exactly at 1048576) without
rotating, and rotates on 8; the first open of a pre-existing 1048569-byte
file rotates already on 7 (landing exactly at the threshold). -/

theorem c1_amended_witness :
    sampleL.logSplitDay = 0 ∧ 7 ≤ sampleL.max ∧ sampleEnv.stat = .ok 500 ∧
    sampleL.file.isSome = true ∧
    ¬ 0 < (write sampleEnv sampleG sampleL 7).rotations ∧
    freshL.file = none ∧ boundaryEnv.stat = .ok 1048569 ∧
    0 < (write boundaryEnv sampleG freshL 7).rotations :=
  ⟨rfl, by decide, rfl, rfl,
    by
      have h := (c1_amended sampleEnv sampleG sampleL 7 500 rfl (by decide) rfl).1 rfl
      rw [h]
      decide,
    rfl, rfl,
    by
      have h := (c1_amended boundaryEnv sampleG freshL 7 1048569 rfl (by decide) rfl).2 rfl
      rw [h]
      decide⟩

/-- C9 counterexample: starting from a clear `isSplitDay`, a `Write` whose
day-split branch fires but whose rotation fails (the `close` inside
`rotate` errors) returns an error and leaves the package-level
`isSplitDay` flag set, contradicting the claim that the flag is reset on
the error path of the rotation. -/

theorem c9_counterexample :
    sampleG.isSplitDay = false ∧
    (write dayEnvFail sampleG dayL 7).err.isSome = true ∧
    (write dayEnvFail sampleG dayL 7).g.isSplitDay = true := by
  decide

theorem dayRotateStep_flag (env : WEnv) (g2 : Globals) (l1 : Logger) (p rc : Nat)
    (evs : List RotEvent) :
    (dayRotateStep env g2 l1 p rc evs).daySplitRotateFailed = true ∨
    (dayRotateStep env g2 l1 p rc evs).g.isSplitDay = false := by
  unfold dayRotateStep
  split
  · cases h : (rotateModel .daySplit env { g2 with isSplitDay := true }
        { l1 with splitDayCount := 0 }).err
    · right
      simp only [h]
      rw [(sizeStep_g _ _ _ _ _ _ _).1]
    · left
      simp [h]
  · right
    rw [(sizeStep_g _ _ _ _ _ _ _).1]

theorem dayStep_flag (env : WEnv) (g : Globals) (l : Logger) (p rc : Nat)
    (evs : List RotEvent) (h0 : g.isSplitDay = false) :
    (dayStep env g l p rc evs).daySplitRotateFailed = true ∨
    (dayStep env g l p rc evs).g.isSplitDay = false := by
  unfold dayStep
  split
  · split
    · exact dayRotateStep_flag _ _ _ _ _ _
    · right
      rw [(sizeStep_g _ _ _ _ _ _ _).1]
      exact h0
  · right
    rw [(sizeStep_g _ _ _ _ _ _ _).1]
    exact h0

theorem write_flag (env : WEnv) (g : Globals) (l : Logger) (p : Nat)
    (h0 : g.isSplitDay = false) :
    (write env g l p).daySplitRotateFailed = true ∨
    (write env g l p).g.isSplitDay = false := by
  unfold write
  split
  · right; exact h0
  · cases hfile : l.file
    · simp only [hfile]
      have hg := (openExistingOrNewModel_spec env g l p).1
      cases herr : (openExistingOrNewModel env g l p).err
      · simp only [herr]
        exact dayStep_flag _ _ _ _ _ _ (by rw [hg]; exact h0)
      · simp only [herr]
        right
        have hgoal : (openExistingOrNewModel env g l p).g.isSplitDay = false := by
          rw [hg]; exact h0
        exact hgoal
    · simp only [hfile]
      exact dayStep_flag _ _ _ _ _ _ h0

/-- C9 amended: starting from a clear flag, every `Write` returns with
`isSplitDay` clear again on every path EXCEPT when the day-split branch's
own rotation fails, in which case `Write` returns with the flag still
set (so a subsequent rotation names its backup with the day-boundary
timestamp even though it is not itself a day-split). -/

theorem c9_amended (env : WEnv) (g : Globals) (l : Logger) (p : Nat)
    (h0 : g.isSplitDay = false)
    (h1 : (write env g l p).daySplitRotateFailed = false) :
    (write env g l p).g.isSplitDay = false := by
  rcases write_flag env g l p h0 with h | h
  · rw [h] at h1
    exact absurd h1 (by simp)
  · exact h

/-- Closed instance of the amended flag discipline: a plain size-bounded
write leaves the flag clear. -/

theorem c9_amended_witness :
    sampleG.isSplitDay = false ∧
    (write sampleEnv sampleG sampleL 7).daySplitRotateFailed = false ∧
    (write sampleEnv sampleG sampleL 7).g.isSplitDay = false :=
  ⟨rfl, by decide, c9_amended sampleEnv sampleG sampleL 7 rfl (by decide)⟩

/-- C10: `Close` is idempotent at the public interface.  `close`
(lumberjack.go:252-260) returns `nil` and changes nothing when no handle
is open; after any `Close` the handle is `nil`, so a second consecutive
`Close` returns `nil` and leaves the state unchanged, in every
environment. -/

theorem c10_close_idempotent (env env2 : WEnv) (l : Logger) :
    (l.file = none → closeModel env l = (l, none)) ∧
    (closeModel env l).1.file = none ∧
    closeModel env2 (closeModel env l).1 = ((closeModel env l).1, none) := by
  cases hf : l.file
  · simp [closeModel, hf]
  · simp [closeModel, hf]

/-- Closed instance of `Close` idempotence: closing a never-opened logger
is a no-op, and the second of two consecutive closes of an open logger
returns `nil` with the handle still cleared. -/

theorem c10_close_idempotent_witness :
    freshL.file = none ∧ closeModel sampleEnv freshL = (freshL, none) ∧
    (closeModel sampleEnv sampleL).1.file = none ∧
    closeModel sampleEnv (closeModel sampleEnv sampleL).1 =
      ((closeModel sampleEnv sampleL).1, none) :=
  ⟨rfl, (c10_close_idempotent sampleEnv sampleEnv freshL).1 rfl,
    (c10_close_idempotent sampleEnv sampleEnv sampleL).2.1,
    (c10_close_idempotent sampleEnv sampleEnv sampleL).2.2⟩

/-! ## Backup-name timestamps (C6) -/

theorem sizeStep_events (env : WEnv) (g : Globals) (l : Logger) (p rc : Nat)
    (evs : List RotEvent) (dsf : Bool) :
    ∀ ev ∈ (sizeStep env g l p rc evs dsf).events,
      ev ∈ evs ∨ ev = ⟨.sizeLimit, g.isSplitDay, backupTs env g⟩ := by
  have h6 := (rotateModel_spec .sizeLimit env g l).2.2.2.2.2
  unfold sizeStep
  split
  · cases h : (rotateModel .sizeLimit env g l).err <;>
    · intro ev hev
      simp only [h, doWrite, List.mem_append] at hev
      rcases hev with h1 | h1
      · exact Or.inl h1
      · exact Or.inr (h6 ev h1)
  · intro ev hev
    simp only [doWrite] at hev
    exact Or.inl hev

theorem dayRotateStep_events (env : WEnv) (g2 : Globals) (l1 : Logger) (p rc : Nat)
    (evs : List RotEvent) :
    ∀ ev ∈ (dayRotateStep env g2 l1 p rc evs).events,
      ev ∈ evs ∨ ev = ⟨.daySplit, true, g2.yesterdayLastTimestamp⟩ ∨
        (ev.cause = RotCause.sizeLimit ∧ ev.ts = env.now) := by
  have h6 := (rotateModel_spec .daySplit env { g2 with isSplitDay := true }
    { l1 with splitDayCount := 0 }).2.2.2.2.2
  unfold dayRotateStep
  split
  · cases h : (rotateModel .daySplit env { g2 with isSplitDay := true }
        { l1 with splitDayCount := 0 }).err
    · intro ev hev
      simp only [h] at hev
      rcases sizeStep_events env _ _ p (rc + 1) _ false ev hev with h1 | h1
      · rcases List.mem_append.mp h1 with h2 | h2
        · exact Or.inl h2
        · right; left
          have := h6 ev h2
          simpa [backupTs] using this
      · right; right
        rw [h1]
        simp [backupTs]
    · intro ev hev
      simp only [h, List.mem_append] at hev
      rcases hev with h1 | h1
      · exact Or.inl h1
      · right; left
        have := h6 ev h1
        simpa [backupTs] using this
  · intro ev hev
    rcases sizeStep_events env _ _ p rc evs false ev hev with h1 | h1
    · exact Or.inl h1
    · right; right
      rw [h1]
      simp [backupTs]

theorem dayStep_events (env : WEnv) (g : Globals) (l : Logger) (p rc : Nat)
    (evs : List RotEvent) (h0 : g.isSplitDay = false) :
    ∀ ev ∈ (dayStep env g l p rc evs).events,
      ev ∈ evs ∨
        (ev.cause = RotCause.daySplit ∧ ev.ts = endOfDay env.off (env.now - 86400)) ∨
        (ev.cause = RotCause.sizeLimit ∧ ev.ts = env.now) := by
  unfold dayStep
  split
  · split
    · intro ev hev
      rcases dayRotateStep_events env _ _ p rc evs ev hev with h1 | h1 | h1
      · exact Or.inl h1
      · right; left
        rw [h1]
        exact ⟨rfl, rfl⟩
      · right; right; exact h1
    · intro ev hev
      rcases sizeStep_events env _ _ p rc evs false ev hev with h1 | h1
      · exact Or.inl h1
      · right; right
        rw [h1]
        simp [backupTs, h0]
  · intro ev hev
    rcases sizeStep_events env _ _ p rc evs false ev hev with h1 | h1
    · exact Or.inl h1
    · right; right
      rw [h1]
      simp [backupTs, h0]

theorem write_events (env : WEnv) (g : Globals) (l : Logger) (p : Nat)
    (h0 : g.isSplitDay = false) :
    ∀ ev ∈ (write env g l p).events,
      (ev.cause = RotCause.firstOpen ∧ ev.ts = env.now) ∨
      (ev.cause = RotCause.daySplit ∧ ev.ts = endOfDay env.off (env.now - 86400)) ∨
      (ev.cause = RotCause.sizeLimit ∧ ev.ts = env.now) := by
  have hg := (openExistingOrNewModel_spec env g l p).1
  have hev6 := (openExistingOrNewModel_spec env g l p).2.2.2.2.2
  have hopen : ∀ ev ∈ (openExistingOrNewModel env g l p).events,
      ev.cause = RotCause.firstOpen ∧ ev.ts = env.now := by
    intro ev hev
    have := hev6 ev hev
    rw [this]
    exact ⟨rfl, by simp [backupTs, h0]⟩
  unfold write
  split
  · intro ev hev
    simp at hev
  · cases hfile : l.file
    · simp only [hfile]
      cases herr : (openExistingOrNewModel env g l p).err
      · simp only [herr]
        intro ev hev
        rcases dayStep_events env _ _ p _ _ (by rw [hg]; exact h0) ev hev with h1 | h1 | h1
        · exact Or.inl (hopen ev h1)
        · exact Or.inr (Or.inl h1)
        · exact Or.inr (Or.inr h1)
      · simp only [herr]
        intro ev hev
        exact Or.inl (hopen ev hev)
    · simp only [hfile]
      intro ev hev
      rcases dayStep_events env g l p 0 [] h0 ev hev with h1 | h1 | h1
      · simp at h1
      · exact Or.inr (Or.inl h1)
      · exact Or.inr (Or.inr h1)

/-- C6 counterexample: after a `Write` whose day-split rotation failed
(leaving `isSplitDay` set, see the C9 counterexample), a subsequent
manual `Rotate` — a rotation that is NOT a day-split — embeds the
previous day's end-of-day instant (86399 = `endOfDay` of `now − 1 day`)
instead of the current instant 1000, contradicting the claim that every
non-day-split rotation embeds the current time. -/

theorem c6_counterexample :
    sampleG.isSplitDay = false ∧
    (rotateTop sampleEnv (write dayEnvFail sampleG dayL 7).g
        (write dayEnvFail sampleG dayL 7).l).events =
      [⟨.manualRot, true, 86399⟩] ∧
    endOfDay sampleEnv.off (dayEnvFail.now - 86400) = 86399 ∧
    sampleEnv.now = 1000 := by
  decide

/-- C6 amended: provided `isSplitDay` is clear when the call starts (it
can be left set by a day-split rotation whose rotate failed, see C9),
every backup rename performed by a `Write` embeds the previous day's
end-of-day instant (yesterday 23:59:59 in the configured zone) exactly
when the rotation is the day-split one, and the current instant for every
other cause; a manual `Rotate` from such a state likewise embeds the
current instant. -/

theorem c6_amended (env : WEnv) (g : Globals) (l : Logger) (p : Nat)
    (h0 : g.isSplitDay = false) :
    (∀ ev ∈ (write env g l p).events,
      (ev.cause = RotCause.daySplit → ev.ts = endOfDay env.off (env.now - 86400)) ∧
      (ev.cause ≠ RotCause.daySplit → ev.ts = env.now)) ∧
    (∀ ev ∈ (rotateTop env g l).events,
      ev.cause ≠ RotCause.daySplit ∧ ev.ts = env.now) := by
  constructor
  · intro ev hev
    rcases write_events env g l p h0 ev hev with ⟨hc, ht⟩ | ⟨hc, ht⟩ | ⟨hc, ht⟩ <;>
      constructor <;> intro h <;> simp_all
  · intro ev hev
    have hev2 := (rotateModel_spec .manualRot env g l).2.2.2.2.2 ev hev
    rw [hev2]
    exact ⟨by simp, by simp [backupTs, h0]⟩

/-- Closed instance of the amended C6: a size-triggered rotation from a
clean state embeds the current instant. -/

theorem c6_amended_witness :
    sampleG.isSplitDay = false ∧
    ((∀ ev ∈ (write sampleEnv sampleG sampleL 7).events,
        (ev.cause = RotCause.daySplit →
          ev.ts = endOfDay sampleEnv.off (sampleEnv.now - 86400)) ∧
        (ev.cause ≠ RotCause.daySplit → ev.ts = sampleEnv.now)) ∧
      (∀ ev ∈ (rotateTop sampleEnv sampleG sampleL).events,
        ev.cause ≠ RotCause.daySplit ∧ ev.ts = sampleEnv.now)) :=
  ⟨rfl, c6_amended sampleEnv sampleG sampleL 7 rfl⟩

theorem sizeStep_post (env : WEnv) (g : Globals) (l : Logger) (p rc : Nat)
    (evs : List RotEvent) (dsf : Bool)
    (hw : env.writeN ≤ p) (hp : p ≤ l.max) (hrc : 0 < rc → l.size = 0) :
    writePost env l.max (sizeStep env g l p rc evs dsf) := by
  obtain ⟨hg1, hmx, _, _, herr, _⟩ := rotateModel_spec .sizeLimit env g l
  unfold sizeStep
  split
  · cases h : (rotateModel .sizeLimit env g l).err
    · have h0 := (herr h).1
      simp only [h, doWrite]
      constructor
      · intro _
        exact ⟨by rw [h0]; dsimp only; omega, rfl, 0, by rw [h0], by rw [h0], fun _ => rfl⟩
      · intro _
        exact ⟨rfl, rfl⟩
    · simp [h, writePost]
  · rename_i hnot
    simp only [doWrite]
    constructor
    · intro _
      exact ⟨by dsimp only; omega, rfl, l.size, rfl, rfl, hrc⟩
    · intro _
      exact ⟨rfl, rfl⟩

theorem dayRotateStep_post (env : WEnv) (g2 : Globals) (l1 : Logger) (p rc : Nat)
    (evs : List RotEvent)
    (hw : env.writeN ≤ p) (hp : p ≤ l1.max) (hrc : 0 < rc → l1.size = 0) :
    writePost env l1.max (dayRotateStep env g2 l1 p rc evs) := by
  obtain ⟨hg1, hmx, _, _, herr, _⟩ := rotateModel_spec .daySplit env
    { g2 with isSplitDay := true } { l1 with splitDayCount := 0 }
  unfold dayRotateStep
  split
  · cases h : (rotateModel .daySplit env { g2 with isSplitDay := true }
        { l1 with splitDayCount := 0 }).err
    · simp only [h]
      have hmax : (rotateModel .daySplit env { g2 with isSplitDay := true }
          { l1 with splitDayCount := 0 }).l.max = l1.max := Logger.max_congr _ _ hmx
      rw [← hmax]
      exact sizeStep_post _ _ _ _ _ _ _ hw (by rw [hmax]; exact hp) (fun _ => (herr h).1)
    · simp [h, writePost]
  · exact sizeStep_post env _ l1 p rc evs false hw hp hrc

theorem dayStep_post (env : WEnv) (g : Globals) (l : Logger) (p rc : Nat)
    (evs : List RotEvent)
    (hw : env.writeN ≤ p) (hp : p ≤ l.max) (hrc : 0 < rc → l.size = 0) :
    writePost env l.max (dayStep env g l p rc evs) := by
  unfold dayStep
  split
  · split
    · have hmax : ({ l with splitDayCount := l.splitDayCount + 1 } : Logger).max = l.max :=
        Logger.max_congr _ _ rfl
      rw [← hmax]
      exact dayRotateStep_post _ _ _ _ _ _ hw (by rw [hmax]; exact hp) hrc
    · exact sizeStep_post env _ l p rc evs false hw hp hrc
  · exact sizeStep_post env g l p rc evs false hw hp hrc

/-- C5: whenever a `Write` call returns a `nil` error, the size counter
satisfies `size ≤ max`, and it equals the size immediately before the
underlying write — 0 if a rotation occurred during the call — plus the
number of bytes actually written, which is also the count returned to the
caller; the underlying write's count and error are returned verbatim.
The hypothesis `writeN ≤ p` is the `io.Writer` contract of the
underlying `os.File` (it never reports more bytes than were passed). -/

theorem c5_size_postcondition (env : WEnv) (g : Globals) (l : Logger) (p : Nat)
    (hw : env.writeN ≤ p) :
    writePost env l.max (write env g l p) := by
  unfold write
  split
  · simp [writePost]
  · rename_i hov
    have hp : p ≤ l.max := by omega
    cases hfile : l.file
    · simp only [hfile]
      obtain ⟨hg, hmx, hsd, hsc, herr, hev⟩ := openExistingOrNewModel_spec env g l p
      have hmax : (openExistingOrNewModel env g l p).l.max = l.max :=
        Logger.max_congr _ _ hmx
      cases herr2 : (openExistingOrNewModel env g l p).err
      · simp only [herr2]
        have h1 := dayStep_post env (openExistingOrNewModel env g l p).g
          (openExistingOrNewModel env g l p).l p
          (openExistingOrNewModel env g l p).rotations
          (openExistingOrNewModel env g l p).events hw
          (by rw [hmax]; exact hp) (fun h => (herr herr2).2 h)
        rw [hmax] at h1
        exact h1
      · simp only [herr2]
        simp [writePost]
    · simp only [hfile]
      exact dayStep_post env g l p 0 [] hw hp (by omega)

/-- Closed instance of the write post-condition at a successful concrete
write. -/

theorem c5_size_postcondition_witness :
    sampleEnv.writeN ≤ 7 ∧
    writePost sampleEnv sampleL.max (write sampleEnv sampleG sampleL 7) :=
  ⟨by decide, c5_size_postcondition sampleEnv sampleG sampleL 7 (by decide)⟩

theorem runRemoves_trace (env : MillEnv) (acc : Option Nat) (fs : List LogInfo) :
    (runRemoves env acc fs).1 = fs.map (fun f => .rm f.name (env.removeRes f.name)) := by
  induction fs generalizing acc with
  | nil => rfl
  | cons f fs ih => simp [runRemoves, ih]

theorem runCompresses_trace (env : MillEnv) (acc : Option Nat) (fs : List LogInfo) :
    (runCompresses env acc fs).1 =
      fs.map (fun f => .gz f.name (env.compressRes f.name)) := by
  induction fs generalizing acc with
  | nil => rfl
  | cons f fs ih => simp [runCompresses, ih]

theorem goCollect_some (e : Nat) (r : Option Nat) : goCollect (some e) r = some e := by
  cases r <;> rfl

theorem runRemoves_err_some (env : MillEnv) (e : Nat) (fs : List LogInfo) :
    (runRemoves env (some e) fs).2 = some e := by
  induction fs with
  | nil => rfl
  | cons f fs ih => simp [runRemoves, goCollect_some, ih]

theorem runCompresses_err_some (env : MillEnv) (e : Nat) (fs : List LogInfo) :
    (runCompresses env (some e) fs).2 = some e := by
  induction fs with
  | nil => rfl
  | cons f fs ih => simp [runCompresses, goCollect_some, ih]

theorem runRemoves_err (env : MillEnv) (fs : List LogInfo) :
    (runRemoves env none fs).2 = firstSome (fs.map (fun f => env.removeRes f.name)) := by
  induction fs with
  | nil => rfl
  | cons f fs ih =>
    cases h : env.removeRes f.name
    · simp [runRemoves, goCollect, h, ih, firstSome]
    · simp [runRemoves, goCollect, h, runRemoves_err_some, firstSome]

theorem runCompresses_err (env : MillEnv) (fs : List LogInfo) :
    (runCompresses env none fs).2 =
      firstSome (fs.map (fun f => env.compressRes f.name)) := by
  induction fs with
  | nil => rfl
  | cons f fs ih =>
    cases h : env.compressRes f.name
    · simp [runCompresses, goCollect, h, ih, firstSome]
    · simp [runCompresses, goCollect, h, runCompresses_err_some, firstSome]

theorem firstSome_append (xs ys : List (Option Nat)) :
    firstSome (xs ++ ys) =
      (match firstSome xs with
       | some e => some e
       | none => firstSome ys) := by
  induction xs with
  | nil => rfl
  | cons x xs ih => cases x <;> simp [firstSome, ih]

theorem applyPhase_err (env : MillEnv) (rem cmp : List LogInfo) :
    (runCompresses env (runRemoves env none rem).2 cmp).2 =
      firstSome (rem.map (fun f => env.removeRes f.name) ++
        cmp.map (fun f => env.compressRes f.name)) := by
  rw [firstSome_append]
  cases h : (runRemoves env none rem).2
  · rw [runCompresses_err]
    rw [runRemoves_err] at h
    rw [h]
  · rw [runCompresses_err_some]
    rw [runRemoves_err] at h
    rw [h]

/-- C7: within one sweep, the applied-action trace is exactly all selected
deletions (in order) followed by all selected compressions (in order) —
every file is processed regardless of earlier failures — and the
returned error is the first error among those actions in that order, or
`nil` when every action succeeded. -/

theorem c7_sweep_order (cfg : MillCfg) (env : MillEnv) (files : List LogInfo) :
    (millRunOnce cfg env files).trace =
      (millRunOnce cfg env files).removeSel.map
        (fun f => .rm f.name (env.removeRes f.name)) ++
      (millRunOnce cfg env files).compressSel.map
        (fun f => .gz f.name (env.compressRes f.name)) ∧
    (millRunOnce cfg env files).err =
      (firstSome ((millRunOnce cfg env files).removeSel.map (fun f => env.removeRes f.name) ++
        (millRunOnce cfg env files).compressSel.map
          (fun f => env.compressRes f.name))).map GoErr.fsErr := by
  unfold millRunOnce
  split
  · exact ⟨rfl, rfl⟩
  · constructor
    · dsimp only
      rw [runRemoves_trace, runCompresses_trace]
    · dsimp only
      rw [applyPhase_err]

/-- C4: compression is all-or-nothing.  On success the destination holds
the gzip encoding of the source's full content and carries the source's
permission mode, and the source has been removed; on failure at any step
the destination does not exist (it was deleted if partially written, or
never created) and the source is untouched, with the error returned. -/

theorem c4_compress_all_or_nothing (gzEnc : List Nat → List Nat) (env : CompressEnv) :
    ((compressLogFile gzEnc env).err = none →
      compressLogFile gzEnc env =
        ⟨false, some (gzEnc env.srcContent, env.srcMode), none⟩) ∧
    ((compressLogFile gzEnc env).err ≠ none →
      (compressLogFile gzEnc env).dst = none ∧
      (compressLogFile gzEnc env).srcPresent = true) := by
  unfold compressLogFile
  cases env.openSrcErr <;> cases env.statSrcErr <;> cases env.openDstErr <;>
    cases env.copyErr <;> cases env.gzCloseErr <;> cases env.dstCloseErr <;>
    cases env.srcCloseErr <;> cases env.removeSrcErr <;> simp

/-- Closed instances of the compression contract: a fully successful run
produces the encoded destination and removes the source, and a run whose
copy step fails leaves no destination and keeps the source. -/

theorem c4_compress_all_or_nothing_witness :
    ((compressLogFile id cEnvOk).err = none ∧
      compressLogFile id cEnvOk = ⟨false, some ([10, 20, 30], 420), none⟩) ∧
    ((compressLogFile id cEnvCopyFail).err ≠ none ∧
      (compressLogFile id cEnvCopyFail).dst = none ∧
      (compressLogFile id cEnvCopyFail).srcPresent = true) :=
  ⟨⟨by decide, (c4_compress_all_or_nothing id cEnvOk).1 (by decide)⟩,
   ⟨by decide, (c4_compress_all_or_nothing id cEnvCopyFail).2 (by decide)⟩⟩

/-! ## Characterizing the count filter (C3)

`countPass` walks the listing newest first and keeps a file exactly when
its logical name is among the first `k` distinct logical names.  The
listing is grouped — the files of one logical backup (a file and its
`.gz` counterpart, which carry the same rotation time) are adjacent —
which is expressed as: the list of logical names with consecutive runs
collapsed (`groupsOf`) has no duplicates. -/

theorem groupsFrom_eq (a : Name) (l : List Name) :
    groupsFrom a l = groupsOf (l.dropWhile (fun b => decide (b = a))) := by
  induction l generalizing a with
  | nil => rfl
  | cons b l ih =>
    by_cases hb : b = a
    · simp [groupsFrom, List.dropWhile, hb, ih]
    · simp [groupsFrom, List.dropWhile, hb, groupsOf]

theorem mem_groupsFrom (x a : Name) (l : List Name) (hx : x ∈ l) :
    x ∈ a :: groupsFrom a l := by
  induction l generalizing a with
  | nil => simp at hx
  | cons b l ih =>
    rcases List.mem_cons.mp hx with h | h
    · subst h
      by_cases hb : x = a
      · simp [hb]
      · simp [groupsFrom, hb]
    · by_cases hb : b = a
      · subst hb
        have := ih b h
        simpa [groupsFrom] using this
      · have := ih b h
        rcases List.mem_cons.mp this with h2 | h2
        · simp [groupsFrom, hb, h2]
        · simp [groupsFrom, hb]
          tauto

theorem mem_groupsOf (x : Name) (l : List Name) (hx : x ∈ l) : x ∈ groupsOf l := by
  cases l with
  | nil => simp at hx
  | cons a l =>
    rcases List.mem_cons.mp hx with h | h
    · subst h; simp [groupsOf]
    · exact mem_groupsFrom x a l h

theorem length_groupsFrom_le (a : Name) (l : List Name) :
    (groupsFrom a l).length ≤ l.length := by
  induction l generalizing a with
  | nil => simp [groupsFrom]
  | cons b l ih =>
    by_cases hb : b = a
    · simp only [groupsFrom, if_pos hb]
      exact Nat.le_succ_of_le (ih a)
    · simp only [groupsFrom, if_neg hb, List.length_cons]
      exact Nat.succ_le_succ (ih b)

theorem length_groupsOf_le (l : List Name) : (groupsOf l).length ≤ l.length := by
  cases l with
  | nil => simp [groupsOf]
  | cons a l =>
    simp only [groupsOf, List.length_cons]
    exact Nat.succ_le_succ (length_groupsFrom_le a l)

theorem take_cons_self (a : Name) (G : List Name) (n : Nat) :
    (a ∈ (a :: G).take n) ↔ 0 < n := by
  cases n <;> simp

theorem take_cons_ne (x a : Name) (G : List Name) (n : Nat) (hne : x ≠ a) :
    (x ∈ (a :: G).take n) ↔ x ∈ G.take (n - 1) := by
  cases n with
  | zero => simp
  | succ n => simp [List.take_succ_cons, hne]

theorem countPass_run (k : Nat) : ∀ (run rest : List LogInfo)
    (seen : List Name) (a : Name), a ∈ seen → (∀ f ∈ run, logKey f = a) →
    countPass k seen (run ++ rest) =
      (if k < seen.length then run ++ (countPass k seen rest).1
       else (countPass k seen rest).1,
       if k < seen.length then (countPass k seen rest).2
       else run ++ (countPass k seen rest).2) := by
  intro run
  induction run with
  | nil =>
    intro rest seen a _ _
    simp
  | cons f run ih =>
    intro rest seen a ha hrun
    have hf : logicalName f.name = a := hrun f (by simp)
    have hmem : logicalName f.name ∈ seen := by rw [hf]; exact ha
    simp only [List.cons_append, countPass, if_pos hmem, List.append_eq]
    rw [ih rest seen a ha (fun x hx => hrun x (by simp [hx]))]
    by_cases hk : k < seen.length
    · simp [hk]
    · simp [hk]

theorem dropWhile_eq_self_of_all {p : Name → Bool} {l : List Name}
    (h : ∀ x ∈ l, p x = false) : l.dropWhile p = l := by
  cases l with
  | nil => rfl
  | cons b t => simp [List.dropWhile, h b (by simp)]

theorem dropWhile_append_of_all {p : Name → Bool} {l1 : List Name} (l2 : List Name)
    (h : ∀ x ∈ l1, p x = true) : (l1 ++ l2).dropWhile p = l2.dropWhile p := by
  induction l1 with
  | nil => rfl
  | cons b t ih =>
    simp only [List.cons_append, List.dropWhile, h b (by simp)]
    exact ih (fun x hx => h x (by simp [hx]))

theorem filter_all_true {p : LogInfo → Bool} {l : List LogInfo}
    (h : ∀ x ∈ l, p x = true) : l.filter p = l :=
  List.filter_eq_self.mpr h

theorem filter_all_false {p : LogInfo → Bool} {l : List LogInfo}
    (h : ∀ x ∈ l, p x = false) : l.filter p = [] :=
  List.filter_eq_nil_iff.mpr (by intro x hx; rw [h x hx]; simp)

theorem countPass_cons_aux (k : Nat) (f : LogInfo) (run rest : List LogInfo)
    (seen : List Name) (G' : List Name)
    (hrun_keys : ∀ x ∈ run, logKey x = logKey f)
    (hkey_rest : ∀ x ∈ rest, logKey x ≠ logKey f)
    (hfn : logicalName f.name ∉ seen)
    (hc : countPass k (seen ++ [logKey f]) rest =
      (rest.filter (fun x => ! decide (logKey x ∈ G'.take (k - (seen.length + 1)))),
       rest.filter (fun x => decide (logKey x ∈ G'.take (k - (seen.length + 1)))))) :
    countPass k seen (f :: (run ++ rest)) =
      ((f :: (run ++ rest)).filter
        (fun x => ! decide (logKey x ∈ (logKey f :: G').take (k - seen.length))),
       (f :: (run ++ rest)).filter
        (fun x => decide (logKey x ∈ (logKey f :: G').take (k - seen.length)))) := by
  have hsplitrun := countPass_run k run rest (seen ++ [logKey f]) (logKey f)
    (by simp) hrun_keys
  simp only [countPass]
  rw [if_neg hfn]
  rw [show seen ++ [logicalName f.name] = seen ++ [logKey f] from rfl, hsplitrun, hc]
  simp only [List.length_append, List.length_singleton]
  by_cases hk : k < seen.length + 1
  · have hk0 : k - seen.length = 0 := by omega
    have hk1 : k - (seen.length + 1) = 0 := by omega
    rw [hk0, hk1]
    simp [hk]
  · have hmemf : logKey f ∈ (logKey f :: G').take (k - seen.length) :=
      (take_cons_self _ _ _).mpr (by omega)
    have harith : k - seen.length - 1 = k - (seen.length + 1) := by omega
    have hptwise : ∀ x ∈ rest,
        (logKey x ∈ (logKey f :: G').take (k - seen.length)) ↔
          logKey x ∈ G'.take (k - (seen.length + 1)) := by
      intro x hx
      rw [take_cons_ne _ _ _ _ (hkey_rest x hx), harith]
    have hremove : (f :: (run ++ rest)).filter
        (fun x => ! decide (logKey x ∈ (logKey f :: G').take (k - seen.length))) =
        rest.filter (fun x => ! decide (logKey x ∈ G'.take (k - (seen.length + 1)))) := by
      rw [List.filter_cons, List.filter_append]
      rw [filter_all_false (l := run) (fun x hx => by simp [hrun_keys x hx, hmemf]),
        List.filter_congr
          (p := fun x => ! decide (logKey x ∈ (logKey f :: G').take (k - seen.length)))
          (q := fun x => ! decide (logKey x ∈ G'.take (k - (seen.length + 1))))
          (l := rest)
          (fun x hx => by simp [decide_eq_decide.mpr (hptwise x hx)])]
      simp [hmemf]
    have hkeep : (f :: (run ++ rest)).filter
        (fun x => decide (logKey x ∈ (logKey f :: G').take (k - seen.length))) =
        f :: (run ++ rest.filter
          (fun x => decide (logKey x ∈ G'.take (k - (seen.length + 1))))) := by
      rw [List.filter_cons, List.filter_append]
      rw [filter_all_true (l := run) (fun x hx => by simp [hrun_keys x hx, hmemf]),
        List.filter_congr
          (p := fun x => decide (logKey x ∈ (logKey f :: G').take (k - seen.length)))
          (q := fun x => decide (logKey x ∈ G'.take (k - (seen.length + 1))))
          (l := rest)
          (fun x hx => by simp [decide_eq_decide.mpr (hptwise x hx)])]
      simp [hmemf]
    rw [hremove, hkeep]
    simp [hk]

theorem countPass_spec (k : Nat) : ∀ (n : Nat) (fs : List LogInfo) (seen : List Name),
    fs.length ≤ n →
    (groupsOf (fs.map logKey)).Nodup →
    (∀ f ∈ fs, logKey f ∉ seen) →
    countPass k seen fs =
      (fs.filter (fun f =>
        ! decide (logKey f ∈ (groupsOf (fs.map logKey)).take (k - seen.length))),
       fs.filter (fun f =>
        decide (logKey f ∈ (groupsOf (fs.map logKey)).take (k - seen.length)))) := by
  intro n
  induction n with
  | zero =>
    intro fs seen hlen _ _
    have hfs : fs = [] := List.length_eq_zero.mp (Nat.le_zero.mp hlen)
    subst hfs
    rfl
  | succ n ih =>
    intro fs seen hlen hnd hfresh
    cases fs with
    | nil => rfl
    | cons f fs' =>
      have hrun_keys : ∀ x ∈ fs'.takeWhile (fun x => decide (logKey x = logKey f)),
          logKey x = logKey f := by
        intro x hx
        have h1 := List.mem_takeWhile_imp hx
        exact of_decide_eq_true h1
      have hsplit : fs' = fs'.takeWhile (fun x => decide (logKey x = logKey f)) ++
          fs'.dropWhile (fun x => decide (logKey x = logKey f)) :=
        (List.takeWhile_append_dropWhile _ _).symm
      have hG : groupsOf (List.map logKey (f :: fs')) =
          logKey f :: groupsOf
            (List.map logKey (fs'.dropWhile (fun x => decide (logKey x = logKey f)))) := by
        simp only [List.map_cons, groupsOf]
        rw [groupsFrom_eq, List.dropWhile_map]
        rfl
      rw [hG] at hnd
      have hnotin : logKey f ∉ groupsOf
          (List.map logKey (fs'.dropWhile (fun x => decide (logKey x = logKey f)))) :=
        (List.nodup_cons.mp hnd).1
      have hnd' : (groupsOf
          (List.map logKey (fs'.dropWhile (fun x => decide (logKey x = logKey f))))).Nodup :=
        (List.nodup_cons.mp hnd).2
      have hkey_rest : ∀ x ∈ fs'.dropWhile (fun x => decide (logKey x = logKey f)),
          logKey x ≠ logKey f := by
        intro x hx hxa
        have h1 : logKey x ∈ List.map logKey
            (fs'.dropWhile (fun x => decide (logKey x = logKey f))) :=
          List.mem_map_of_mem logKey hx
        have h2 : logKey x ∈ groupsOf (List.map logKey
            (fs'.dropWhile (fun x => decide (logKey x = logKey f)))) :=
          mem_groupsOf _ _ h1
        rw [hxa] at h2
        exact hnotin h2
      have hfresh' : ∀ x ∈ fs'.dropWhile (fun x => decide (logKey x = logKey f)),
          logKey x ∉ seen ++ [logKey f] := by
        intro x hx hmem
        rcases List.mem_append.mp hmem with h2 | h2
        · exact hfresh x (by
            right
            exact (List.dropWhile_sublist _).mem hx) h2
        · exact hkey_rest x hx (List.mem_singleton.mp h2)
      have hlen' : (fs'.dropWhile (fun x => decide (logKey x = logKey f))).length ≤ n := by
        have h1 := (List.dropWhile_sublist
          (fun x => decide (logKey x = logKey f)) (l := fs')).length_le
        simp only [List.length_cons] at hlen
        omega
      have hfn : logicalName f.name ∉ seen := hfresh f (by simp)
      have hc := ih (fs'.dropWhile (fun x => decide (logKey x = logKey f)))
        (seen ++ [logKey f]) hlen' hnd' hfresh'
      simp only [List.length_append, List.length_singleton] at hc
      have hsplit2 : f :: fs' =
          f :: (fs'.takeWhile (fun x => decide (logKey x = logKey f)) ++
            fs'.dropWhile (fun x => decide (logKey x = logKey f))) := by
        rw [← hsplit]
      rw [hG, hsplit2]
      exact countPass_cons_aux k f _ _ seen _ hrun_keys hkey_rest hfn hc

/-- C3: with a positive count limit `K` and a positive age limit, one
retention sweep selects for deletion exactly the backup files that are
beyond the `K` newest logical backups — an uncompressed file and its
`.gz` counterpart counting as one logical backup, `groupsOf` listing the
logical backups newest-rotation-first — or whose rotation timestamp is
strictly older than `now − 24h·days`.  In particular a file among the
`K` newest logical backups but too old is still deleted (age overrides
count), and files older than the limit are deleted even when no more
than `K` backups exist (the count filter is then skipped entirely).  The
hypotheses state that the listing is ordered newest first (as
`oldLogFiles` produces it) and that the files of one logical backup are
adjacent in it (`groupsOf` of the logical names has no duplicates). -/

theorem c3_retention_policy (cfg : MillCfg) (env : MillEnv) (files : List LogInfo)
    (hK : 0 < cfg.logMaxSaveQuantity) (hD : 0 < cfg.logMaxSaveDay)
    (hg : (groupsOf (files.map logKey)).Nodup)
    (_hsorted : files.Chain' (fun f1 f2 => f2.ts ≤ f1.ts)) :
    ∀ f ∈ files,
      (f ∈ (millRunOnce cfg env files).removeSel ↔
        (logKey f ∉ (groupsOf (files.map logKey)).take cfg.logMaxSaveQuantity ∨
         f.ts < env.now - 86400 * (cfg.logMaxSaveDay : Int))) := by
  intro f hf
  unfold millRunOnce
  rw [if_neg (by rintro ⟨h1, -, -⟩; omega)]
  dsimp only
  rw [if_pos hD]
  by_cases hl : cfg.logMaxSaveQuantity < files.length
  · rw [if_pos ⟨hK, hl⟩]
    have hcs := countPass_spec cfg.logMaxSaveQuantity files.length files []
      (Nat.le_refl _) hg (by simp)
    simp only [List.length_nil, Nat.sub_zero] at hcs
    rw [hcs]
    simp only [List.mem_append, List.mem_filter, Bool.not_eq_true', decide_eq_false_iff_not,
      decide_eq_true_eq, hf, true_and]
    constructor
    · rintro (h | ⟨-, h⟩)
      · exact Or.inl h
      · exact Or.inr h
    · rintro (h | h)
      · exact Or.inl h
      · by_cases hmem : logKey f ∈
          (groupsOf (files.map logKey)).take cfg.logMaxSaveQuantity
        · exact Or.inr ⟨hmem, h⟩
        · exact Or.inl hmem
  · rw [if_neg (by rintro ⟨-, h2⟩; omega)]
    have hmem_take : logKey f ∈
        (groupsOf (files.map logKey)).take cfg.logMaxSaveQuantity := by
      have h1 : logKey f ∈ groupsOf (files.map logKey) :=
        mem_groupsOf _ _ (List.mem_map_of_mem logKey hf)
      have h2 : (groupsOf (files.map logKey)).length ≤ cfg.logMaxSaveQuantity := by
        have h3 := length_groupsOf_le (files.map logKey)
        simp only [List.length_map] at h3
        omega
      rw [List.take_of_length_le h2]
      exact h1
    simp only [List.nil_append, List.mem_filter, decide_eq_true_eq, hf, true_and,
      hmem_take, not_true_eq_false, false_or]

/-- Closed instance of the retention characterization: on `wfiles` the
`a.log`/`a.log.gz` pair is beyond the single retained logical backup, and
`b.log` — within the count — is older than the cutoff and so removed as
well (age overrides count). -/

theorem c3_retention_policy_witness :
    (0 < wcfg.logMaxSaveQuantity) ∧ (0 < wcfg.logMaxSaveDay) ∧
    (groupsOf (wfiles.map logKey)).Nodup ∧
    wfiles.Chain' (fun f1 f2 => f2.ts ≤ f1.ts) ∧
    (∀ f ∈ wfiles,
      (f ∈ (millRunOnce wcfg wenv wfiles).removeSel ↔
        (logKey f ∉ (groupsOf (wfiles.map logKey)).take wcfg.logMaxSaveQuantity ∨
         f.ts < wenv.now - 86400 * (wcfg.logMaxSaveDay : Int)))) :=
  ⟨by decide, by decide, by decide, by norm_num [wfiles, List.chain'_cons],
    c3_retention_policy wcfg wenv wfiles (by decide) (by decide) (by decide)
      (by norm_num [wfiles, List.chain'_cons])⟩

end Loglumber

